import Mathlib

/-
Shallow embedding of the two-level key/value cache of
`normalize_japanese_addresses/library/cache.py` and of the fetch dispatcher of
`normalize_japanese_addresses/library/api.py`.

Modelling conventions:
* Python byte strings are `List Nat` (each element one byte value).
* A Python value that may be `None` is `Option V`: `none` is Python `None`,
  `some v` is a non-`None` value.  This matters because `Cache.get` and
  `Cache.get_from_ram` use `is not None` tests, so a stored `None` is
  indistinguishable from absence at those points.
* The `OrderedDict` RAM layer is an association list whose head is the oldest
  (least recently used) entry and whose last element is the newest.
* The file system under the cache directory is an association list from file
  name to file contents; `open(..).read` and `Path.write_bytes` become
  `Disk.read` and `Disk.write`.
* `hashlib.md5(..).hexdigest()` is an uninterpreted parameter
  `H : Bytes → String`; the code uses the digest only as a file name.
* The pluggable serializer pair is carried in the `Cache` structure as
  `encode`/`decode`, exactly as `_encode`/`_decode` are carried on the Python
  instance.
-/

/-- Byte strings (Python `bytes`) modelled as lists of byte values. -/
abbrev Bytes := List Nat

/-- Models Python `n.to_bytes(8, "little")`: eight little-endian bytes.
(`to_bytes` raises `OverflowError` for `n ≥ 2 ^ 64`; the model truncates,
and theorems that depend on exactness carry the `< 2 ^ 64` bound.) -/
def toBytesLE8 (n : Nat) : Bytes :=
  (List.range 8).map fun i => n / 256 ^ i % 256

/-- Models Python `int.from_bytes(bs, "little")`. -/
def fromBytesLE (bs : Bytes) : Nat :=
  bs.foldr (fun b acc => b + 256 * acc) 0

/-- UTF-8 encoding of one Unicode scalar value, by the standard algorithm;
models the per-character behaviour of Python `str.encode("utf-8")`. -/
def utf8Char (n : Nat) : List Nat :=
  if n < 128 then [n]
  else if n < 2048 then [192 + n / 64, 128 + n % 64]
  else if n < 65536 then [224 + n / 4096, 128 + n / 64 % 64, 128 + n % 64]
  else [240 + n / 262144, 128 + n / 4096 % 64, 128 + n / 64 % 64, 128 + n % 64]

/-- Models Python `s.encode("utf-8")`. -/
def utf8 (s : String) : Bytes :=
  (s.data.map (fun c => utf8Char c.toNat)).flatten

/-- The cache directory: file name to file contents. -/
abbrev Disk := List (String × Bytes)

/-- Reading a file: `none` when no such file exists (`path.is_file()` false). -/
def Disk.read (d : Disk) (filename : String) : Option Bytes :=
  match d with
  | [] => none
  | (f, c) :: rest => if f = filename then some c else Disk.read rest filename

/-- Models `path.write_bytes(contents)`: the file is created or its previous
contents are replaced whole (overwrite, not append). -/
def Disk.write (d : Disk) (filename : String) (contents : Bytes) : Disk :=
  match d with
  | [] => [(filename, contents)]
  | (f, c) :: rest =>
    if f = filename then (f, contents) :: rest
    else (f, c) :: Disk.write rest filename contents

/-- The `Cache` instance state: `_version` (already UTF-8 encoded by
`__init__`), `_ram_capacity`, the serializer pair `_encode`/`_decode`, and the
`OrderedDict` `_ram_cache` (head oldest, last newest).  The directory itself
lives outside the structure as a `Disk` value threaded through the
disk-touching operations. -/
structure Cache (V : Type) where
  version : Bytes
  ramCapacity : Nat
  encode : Option V → Bytes
  decode : Bytes → Option V
  ram : List (String × Option V)

/-- Models `Cache.__init__`: the version tag is UTF-8 encoded and the RAM
layer starts empty.  (The `mkdir` call only touches the directory on disk.) -/
def mkCache (V : Type) (version : String) (ramCapacity : Nat)
    (encode : Option V → Bytes) (decode : Bytes → Option V) : Cache V :=
  { version := utf8 version, ramCapacity := ramCapacity,
    encode := encode, decode := decode, ram := [] }

/-- Models `OrderedDict.pop(key, None)`: the stored value (`some`) and the
list with that entry removed, or `none` with the list unchanged when the key
is absent. -/
def popAssoc {α : Type} (l : List (String × α)) (key : String) :
    Option α × List (String × α) :=
  match l with
  | [] => (none, [])
  | (k, v) :: rest =>
    if k = key then (some v, rest)
    else
      let p := popAssoc rest key
      (p.1, (k, v) :: p.2)

/-- Models `Cache.get_from_ram`: pop the key, and when the popped value
`is not None` reinsert it at the newest end.  `Option.join` collapses
"absent" and "stored `None`" exactly as `pop(key, None)` does. -/
def Cache.get_from_ram {V : Type} (c : Cache V) (key : String) :
    Option V × Cache V :=
  let p := popAssoc c.ram key
  match p.1.join with
  | some v => (some v, { c with ram := p.2 ++ [(key, some v)] })
  | none => (none, { c with ram := p.2 })

/-- Models `Cache.get_from_disk`: hash the UTF-8 key into a file name, read
the file, then parse `[version_len:8][version][key_len:8][key][value_len:8]
[value]`, returning `none` on a missing file, a version mismatch or a key
mismatch, and the decoded value otherwise.  `List.take` mirrors `fp.read`,
which returns fewer bytes than requested near the end of the file. -/
def Cache.get_from_disk {V : Type} (H : Bytes → String) (c : Cache V)
    (d : Disk) (key : String) : Option V :=
  let encoded := utf8 key
  let filename := H encoded
  match Disk.read d filename with
  | none => none
  | some s₀ =>
    let version_len := fromBytesLE (s₀.take 8)
    let s₁ := s₀.drop 8
    if s₁.take version_len ≠ c.version then none
    else
      let s₂ := s₁.drop version_len
      let key_len := fromBytesLE (s₂.take 8)
      let s₃ := s₂.drop 8
      if s₃.take key_len ≠ encoded then none
      else
        let s₄ := s₃.drop key_len
        let value_len := fromBytesLE (s₄.take 8)
        let s₅ := s₄.drop 8
        c.decode (s₅.take value_len)

/-- Models `Cache.insert_to_ram`: pop the key; when the popped value
`is None` and the RAM layer (after the pop) is at capacity, drop the oldest
entry (`popitem(last=False)`); then append the new entry at the newest end.
(When `ramCapacity = 0` and the RAM layer is empty the Python `popitem`
would raise `KeyError`; `List.tail []` silently yields `[]`, so theorems
about capacity assume `1 ≤ ramCapacity`, the spec's "positive integer".) -/
def Cache.insert_to_ram {V : Type} (c : Cache V) (key : String)
    (value : Option V) : Cache V :=
  let p := popAssoc c.ram key
  let ram₁ :=
    if p.1.join.isNone && p.2.length == c.ramCapacity then p.2.tail else p.2
  { c with ram := ram₁ ++ [(key, value)] }

/-- Models `Cache.insert_to_disk`: serialize, build the record
`[version_len:8][version][key_len:8][key][value_len:8][value]` and write it
whole to the file named by the hash of the UTF-8 key. -/
def Cache.insert_to_disk {V : Type} (H : Bytes → String) (c : Cache V)
    (d : Disk) (key : String) (value : Option V) : Disk :=
  let encoded_key := utf8 key
  let filename := H encoded_key
  let encoded_val := c.encode value
  let contents :=
    toBytesLE8 c.version.length ++ c.version
      ++ (toBytesLE8 encoded_key.length ++ encoded_key)
      ++ (toBytesLE8 encoded_val.length ++ encoded_val)
  Disk.write d filename contents

/-- Models `Cache.insert`: populate the RAM layer, then the disk store. -/
def Cache.insert {V : Type} (H : Bytes → String) (c : Cache V) (d : Disk)
    (key : String) (value : Option V) : Cache V × Disk :=
  let c₁ := c.insert_to_ram key value
  (c₁, Cache.insert_to_disk H c₁ d key value)

/-- Outcome of `Cache.get`: a returned Python value, or the raised
`KeyError(key)`. -/
inductive GetResult (V : Type) where
  | ok (value : Option V)
  | keyError (key : String)
deriving DecidableEq

/-- Models `Cache.get`: RAM first (`is not None` test), then disk with
promotion into RAM, then the default (the `_NONE_TYPE` sentinel is `none`,
a supplied default — possibly Python `None` — is `some`), else
`KeyError(key)`. -/
def Cache.get {V : Type} (H : Bytes → String) (c : Cache V) (d : Disk)
    (key : String) (default : Option (Option V)) : GetResult V × Cache V :=
  let r := c.get_from_ram key
  match r.1 with
  | some v => (GetResult.ok (some v), r.2)
  | none =>
    match Cache.get_from_disk H r.2 d key with
    | some v => (GetResult.ok (some v), Cache.insert_to_ram r.2 key (some v))
    | none =>
      match default with
      | some dv => (GetResult.ok dv, r.2)
      | none => (GetResult.keyError key, r.2)

/-- Models `Cache.clear_ram`. -/
def Cache.clear_ram {V : Type} (c : Cache V) : Cache V :=
  { c with ram := [] }

/-- One public cache operation, for stating properties of operation
sequences.  (`__getitem__`/`__setitem__` are thin aliases of `get`/`insert`
and need no separate constructor.) -/
inductive CacheOp (V : Type) where
  | get (key : String) (default : Option (Option V))
  | insert (key : String) (value : Option V)
  | clearRam

/-- Whether an operation ever calls `Disk.write`: only `insert` does,
through `insert_to_disk`. -/
def CacheOp.isDiskWrite {V : Type} : CacheOp V → Bool
  | .insert _ _ => true
  | _ => false

/-- State transition of one operation on the pair (instance state, cache
directory).  `get` and `clear_ram` perform no `Disk.write`, so the directory
component passes through them unchanged. -/
def stepOp {V : Type} (H : Bytes → String) (c : Cache V) (d : Disk) :
    CacheOp V → Cache V × Disk
  | .get key default => ((Cache.get H c d key default).2, d)
  | .insert key value => Cache.insert H c d key value
  | .clearRam => (c.clear_ram, d)

/-- Run a finite sequence of cache operations. -/
def runOps {V : Type} (H : Bytes → String) (c : Cache V) (d : Disk) :
    List (CacheOp V) → Cache V × Disk
  | [] => (c, d)
  | op :: ops => runOps H (stepOp H c d op).1 (stepOp H c d op).2 ops

/-- Models Python `s.startswith(pre)`. -/
def pyStartsWith (s pre : String) : Bool :=
  pre.data.isPrefixOf s.data

/-- Left-to-right, non-overlapping replacement of a pattern, fuelled by the
remaining length; models Python `str.replace` for a non-empty pattern. -/
def replaceAux (pat rep : List Char) : Nat → List Char → List Char
  | 0, s => s
  | _ + 1, [] => []
  | fuel + 1, c :: rest =>
    if pat.isPrefixOf (c :: rest) then
      rep ++ replaceAux pat rep fuel ((c :: rest).drop pat.length)
    else c :: replaceAux pat rep fuel rest

/-- Models Python `s.replace(pat, rep)` (every occurrence, not only a
leading one). -/
def pyReplace (s pat rep : String) : String :=
  ⟨replaceAux pat.data rep.data s.data.length s.data⟩

/-- Effect requested by `apiFetch`: an HTTP GET (`requests.get`), a local
file read, or the raised `ValueError("Invalid endpoint type")`. -/
inductive FetchAction where
  | httpGet (url : String)
  | fileRead (path : String)
  | invalidEndpoint
deriving DecidableEq

/-- Models `apiFetch` of `library/api.py`: dispatch on the *string prefix*
of the endpoint — `startswith('http')`, then `startswith('file')` (stripping
every `"file://"` occurrence and percent-decoding via `urllib.parse.unquote`,
here the uninterpreted parameter `unquote`), else `ValueError`. -/
def apiFetch (unquote : String → String) (endpoint : String) : FetchAction :=
  if pyStartsWith endpoint "http" then FetchAction.httpGet endpoint
  else if pyStartsWith endpoint "file" then
    FetchAction.fileRead (unquote (pyReplace endpoint "file://" ""))
  else FetchAction.invalidEndpoint

/-- Modelled from the spec: the scheme of a URI string, the text before the
first `"://"` separator.  `apiFetch` itself never computes a scheme — it
dispatches on string prefixes — so this definition exists only to state the
claim about scheme-based dispatch and compare it with the source behaviour. -/
def uriSchemeAux : List Char → List Char
  | [] => []
  | c :: rest =>
    if [':', '/', '/'].isPrefixOf (c :: rest) then []
    else c :: uriSchemeAux rest

/-- Modelled from the spec: see `uriSchemeAux`. -/
def uriScheme (s : String) : String :=
  ⟨uriSchemeAux s.data⟩

/-- Version field of a disk record, exactly as `get_from_disk` parses it:
eight length bytes, then that many version bytes. -/
def recordVersion (s : Bytes) : Bytes :=
  (s.drop 8).take (fromBytesLE (s.take 8))

/-- Remainder of a disk record after the version field. -/
def recordAfterVersion (s : Bytes) : Bytes :=
  (s.drop 8).drop (fromBytesLE (s.take 8))

/-- Key field of a disk record, exactly as `get_from_disk` parses it. -/
def recordKey (s : Bytes) : Bytes :=
  ((recordAfterVersion s).drop 8).take (fromBytesLE ((recordAfterVersion s).take 8))

/-- Concrete hash parameter for closed instances: renders each byte as one
character, hence injective on byte strings (as a real hex digest is in
practice). -/
def exH : Bytes → String := fun bs => ⟨bs.map fun n => Char.ofNat n⟩

/-- Concrete serializer able to store Python `None`:
`exDecode (exEncode x) = x` for every `x : Option Nat`. -/
def exEncode : Option Nat → Bytes
  | none => [0]
  | some n => [1, n]

/-- Inverse of `exEncode`. -/
def exDecode : Bytes → Option Nat
  | 1 :: n :: _ => some n
  | _ => none

/-- A fresh cache instance with version tag "v1" and RAM capacity 2. -/
def exCache : Cache Nat := mkCache Nat "v1" 2 exEncode exDecode

/-- A fresh cache instance with version tag "v2", pointed (in the closed
instances below) at the same directory value as `exCache`. -/
def exCache2 : Cache Nat := mkCache Nat "v2" 2 exEncode exDecode

/-- A directory holding exactly one record: key "k", value 5, version "v1". -/
def exDisk : Disk := Cache.insert_to_disk exH exCache [] "k" (some 5)

/-- A record whose version field matches "v1" but whose stored key field is
"x" (byte 120), not "k": exercises the key-mismatch (hash collision) guard. -/
def exBadKeyRecord : Bytes :=
  toBytesLE8 2 ++ [118, 49] ++ (toBytesLE8 1 ++ [120]) ++ (toBytesLE8 1 ++ [0])

/- Supporting lemmas: byte encodings. -/

theorem toBytesLE8_length (n : Nat) : (toBytesLE8 n).length = 8 := by
  simp [toBytesLE8]

theorem foldr_digits (n : Nat) : ∀ (k a : Nat),
    List.foldr (fun b acc => b + 256 * acc) a
        ((List.range k).map fun i => n / 256 ^ i % 256)
      = n % 256 ^ k + 256 ^ k * a := by
  intro k
  induction k with
  | zero => intro a; simp [Nat.mod_one]
  | succ k ih =>
    intro a
    rw [List.range_succ, List.map_append, List.foldr_append]
    simp only [List.map_cons, List.map_nil, List.foldr_cons, List.foldr_nil]
    rw [ih]
    have h256 : (256 : Nat) ^ (k + 1) = 256 ^ k * 256 := by ring
    rw [h256, Nat.mod_mul]
    ring

theorem fromBytesLE_toBytesLE8 {n : Nat} (h : n < 2 ^ 64) :
    fromBytesLE (toBytesLE8 n) = n := by
  have h8 : n < 256 ^ 8 := by
    have e : (256 : Nat) ^ 8 = 2 ^ 64 := by norm_num
    rw [e]
    exact h
  unfold fromBytesLE toBytesLE8
  rw [foldr_digits n 8 0]
  simp only [Nat.mul_zero, Nat.add_zero]
  exact Nat.mod_eq_of_lt h8

/- Supporting lemmas: the ordered-mapping pop. -/

theorem popAssoc_of_not_mem {α : Type} {l : List (String × α)} {key : String}
    (h : key ∉ l.map Prod.fst) : popAssoc l key = (none, l) := by
  induction l with
  | nil => rfl
  | cons hd tl ih =>
    obtain ⟨k, v⟩ := hd
    simp only [List.map_cons, List.mem_cons] at h
    push_neg at h
    have hk : ¬ (k = key) := fun heq => h.1 heq.symm
    simp [popAssoc, hk, ih h.2]

theorem popAssoc_snd_of_fst_none {α : Type} {l : List (String × α)} {key : String}
    (h : (popAssoc l key).1 = none) : (popAssoc l key).2 = l := by
  induction l with
  | nil => rfl
  | cons hd tl ih =>
    obtain ⟨k, v⟩ := hd
    by_cases hk : k = key
    · simp [popAssoc, hk] at h
    · simp only [popAssoc, hk, if_false] at h ⊢
      simp at h ⊢
      exact ih h

theorem popAssoc_length_of_fst_some {α : Type} {l : List (String × α)} {key : String}
    {a : α} (h : (popAssoc l key).1 = some a) :
    l.length = (popAssoc l key).2.length + 1 := by
  induction l with
  | nil => simp [popAssoc] at h
  | cons hd tl ih =>
    obtain ⟨k, v⟩ := hd
    by_cases hk : k = key
    · simp [popAssoc, hk]
    · simp only [popAssoc, hk, if_false] at h ⊢
      simp at h ⊢
      exact ih h

theorem popAssoc_snd_sublist {α : Type} (l : List (String × α)) (key : String) :
    ((popAssoc l key).2).Sublist l := by
  induction l with
  | nil => simp [popAssoc]
  | cons hd tl ih =>
    obtain ⟨k, v⟩ := hd
    by_cases hk : k = key
    · simp only [popAssoc, hk, if_true]
      exact List.sublist_cons_self _ _
    · simp only [popAssoc, hk, if_false]
      exact ih.cons₂ _

theorem not_mem_keys_popAssoc_of_nodup {α : Type} {l : List (String × α)} {key : String}
    (h : (l.map Prod.fst).Nodup) : key ∉ ((popAssoc l key).2).map Prod.fst := by
  induction l with
  | nil => simp [popAssoc]
  | cons hd tl ih =>
    obtain ⟨k, v⟩ := hd
    simp only [List.map_cons, List.nodup_cons] at h
    by_cases hk : k = key
    · subst hk
      simp only [popAssoc, if_true]
      exact h.1
    · simp only [popAssoc, hk, if_false, List.map_cons, List.mem_cons]
      push_neg
      exact ⟨fun heq => hk heq.symm, ih h.2⟩

theorem popAssoc_append_of_not_mem {α : Type} {l : List (String × α)} {key : String}
    (v : α) (h : key ∉ l.map Prod.fst) :
    popAssoc (l ++ [(key, v)]) key = (some v, l) := by
  induction l with
  | nil => simp [popAssoc]
  | cons hd tl ih =>
    obtain ⟨k, w⟩ := hd
    simp only [List.map_cons, List.mem_cons] at h
    push_neg at h
    have hk : ¬ (k = key) := fun heq => h.1 heq.symm
    simp [popAssoc, hk, ih h.2]

/- Supporting lemmas: the on-disk store. -/

theorem Disk.read_write_self (d : Disk) (f : String) (contents : Bytes) :
    Disk.read (Disk.write d f contents) f = some contents := by
  induction d with
  | nil => simp [Disk.write, Disk.read]
  | cons hd tl ih =>
    obtain ⟨g, c⟩ := hd
    by_cases hg : g = f
    · simp [Disk.write, Disk.read, hg]
    · simp [Disk.write, Disk.read, hg, ih]

/- Supporting lemmas: RAM-layer operations. -/

theorem join_some_eq {α : Type} (a : Option α) : (some a).join = a := rfl

theorem join_none_eq {α : Type} : (none : Option (Option α)).join = none := rfl

theorem get_from_ram_ramCapacity {V : Type} (c : Cache V) (key : String) :
    ((c.get_from_ram key).2).ramCapacity = c.ramCapacity := by
  rcases hp : (popAssoc c.ram key).1 with _ | a
  · simp [Cache.get_from_ram, hp, join_none_eq]
  · cases a <;> simp [Cache.get_from_ram, hp, join_none_eq, join_some_eq]

theorem get_from_ram_version {V : Type} (c : Cache V) (key : String) :
    ((c.get_from_ram key).2).version = c.version := by
  rcases hp : (popAssoc c.ram key).1 with _ | a
  · simp [Cache.get_from_ram, hp, join_none_eq]
  · cases a <;> simp [Cache.get_from_ram, hp, join_none_eq, join_some_eq]

theorem get_from_ram_decode {V : Type} (c : Cache V) (key : String) :
    ((c.get_from_ram key).2).decode = c.decode := by
  rcases hp : (popAssoc c.ram key).1 with _ | a
  · simp [Cache.get_from_ram, hp, join_none_eq]
  · cases a <;> simp [Cache.get_from_ram, hp, join_none_eq, join_some_eq]

theorem insert_to_ram_ramCapacity {V : Type} (c : Cache V) (key : String)
    (v : Option V) : ((c.insert_to_ram key v)).ramCapacity = c.ramCapacity := rfl

theorem mem_keys_insert_to_ram {V : Type} (c : Cache V) (key : String) (v : Option V) :
    key ∈ ((c.insert_to_ram key v)).ram.map Prod.fst := by
  simp [Cache.insert_to_ram]

theorem length_ram_get_from_ram_le {V : Type} (c : Cache V) (key : String) :
    ((c.get_from_ram key).2).ram.length ≤ c.ram.length := by
  rcases hp : (popAssoc c.ram key).1 with _ | a
  · have h2 := popAssoc_snd_of_fst_none hp
    simp [Cache.get_from_ram, hp, join_none_eq, h2]
  · have hlen := popAssoc_length_of_fst_some hp
    cases a with
    | none =>
      simp only [Cache.get_from_ram, hp, join_some_eq]
      simp
      omega
    | some w =>
      simp only [Cache.get_from_ram, hp, join_some_eq]
      simp
      omega

theorem length_ram_insert_to_ram_le {V : Type} {c : Cache V} (key : String)
    (v : Option V) (hcap : 1 ≤ c.ramCapacity) (h : c.ram.length ≤ c.ramCapacity) :
    ((c.insert_to_ram key v)).ram.length ≤ c.ramCapacity := by
  unfold Cache.insert_to_ram
  simp only [List.length_append, List.length_cons, List.length_nil]
  cases hp : (popAssoc c.ram key).1 with
  | none =>
    have h2 := popAssoc_snd_of_fst_none hp
    rw [h2]
    simp only [join_none_eq, Option.isNone_none, Bool.true_and, beq_iff_eq]
    split
    · next hc =>
      simp only [List.length_tail]
      omega
    · next hc => omega
  | some a =>
    have hlen := popAssoc_length_of_fst_some hp
    cases a with
    | none =>
      simp only [join_some_eq, Option.isNone_none, Bool.true_and, beq_iff_eq]
      split
      · next hc =>
        simp only [List.length_tail]
        omega
      · next hc => omega
    | some w =>
      simp only [join_some_eq, Option.isNone_some, Bool.false_and, Bool.false_eq_true,
        if_false]
      omega

/- Supporting lemmas: the facade `get`. -/

theorem get_from_disk_congr {V : Type} (H : Bytes → String) {c₁ c₂ : Cache V}
    (d : Disk) (key : String) (hv : c₁.version = c₂.version)
    (hd : c₁.decode = c₂.decode) :
    Cache.get_from_disk H c₁ d key = Cache.get_from_disk H c₂ d key := by
  unfold Cache.get_from_disk
  rw [hv, hd]

theorem get_of_miss {V : Type} (H : Bytes → String) (c : Cache V) (d : Disk)
    (key : String) (df : Option (Option V))
    (h1 : key ∉ c.ram.map Prod.fst)
    (h2 : Cache.get_from_disk H c d key = none) :
    Cache.get H c d key df =
      ((match df with
        | some dv => GetResult.ok dv
        | none => GetResult.keyError key), c) := by
  have hpop := popAssoc_of_not_mem h1
  have hram : c.get_from_ram key = (none, c) := by
    simp only [Cache.get_from_ram, hpop]
    rfl
  simp only [Cache.get, hram, h2]
  cases df <;> rfl

theorem get_of_disk_hit {V : Type} (H : Bytes → String) (c : Cache V) (d : Disk)
    (key : String) (df : Option (Option V)) (v : V)
    (h1 : (c.get_from_ram key).1 = none)
    (h2 : Cache.get_from_disk H c d key = some v) :
    Cache.get H c d key df =
      (GetResult.ok (some v), ((c.get_from_ram key).2).insert_to_ram key (some v)) := by
  have h2b : Cache.get_from_disk H ((c.get_from_ram key).2) d key = some v := by
    rw [get_from_disk_congr H d key (get_from_ram_version c key)
      (get_from_ram_decode c key)]
    exact h2
  simp only [Cache.get, h1, h2b]

theorem length_ram_get_le {V : Type} (H : Bytes → String) (c : Cache V) (d : Disk)
    (key : String) (df : Option (Option V)) (hcap : 1 ≤ c.ramCapacity)
    (h : c.ram.length ≤ c.ramCapacity) :
    ((Cache.get H c d key df).2).ram.length ≤ c.ramCapacity := by
  have h1 := length_ram_get_from_ram_le c key
  cases hr : (c.get_from_ram key).1 with
  | some v =>
    simp only [Cache.get, hr]
    omega
  | none =>
    cases hd2 : Cache.get_from_disk H ((c.get_from_ram key).2) d key with
    | some v =>
      simp only [Cache.get, hr, hd2]
      have hcap2 : 1 ≤ ((c.get_from_ram key).2).ramCapacity := by
        rw [get_from_ram_ramCapacity]
        exact hcap
      have hh : ((c.get_from_ram key).2).ram.length ≤ ((c.get_from_ram key).2).ramCapacity := by
        rw [get_from_ram_ramCapacity]
        omega
      have hfin := length_ram_insert_to_ram_le key (some v) hcap2 hh
      rw [get_from_ram_ramCapacity] at hfin
      exact hfin
    | none =>
      cases df <;> simp only [Cache.get, hr, hd2] <;> omega

theorem get_ramCapacity {V : Type} (H : Bytes → String) (c : Cache V) (d : Disk)
    (key : String) (df : Option (Option V)) :
    ((Cache.get H c d key df).2).ramCapacity = c.ramCapacity := by
  cases hr : (c.get_from_ram key).1 with
  | some v => simp only [Cache.get, hr, get_from_ram_ramCapacity]
  | none =>
    cases hd2 : Cache.get_from_disk H ((c.get_from_ram key).2) d key with
    | some v =>
      simp only [Cache.get, hr, hd2, insert_to_ram_ramCapacity,
        get_from_ram_ramCapacity]
    | none =>
      cases df <;> simp only [Cache.get, hr, hd2, get_from_ram_ramCapacity]

/- Supporting lemmas: operation sequences. -/

theorem stepOp_ramCapacity {V : Type} (H : Bytes → String) (c : Cache V) (d : Disk)
    (op : CacheOp V) : ((stepOp H c d op).1).ramCapacity = c.ramCapacity := by
  cases op with
  | get k df => simpa [stepOp] using get_ramCapacity H c d k df
  | insert k v => rfl
  | clearRam => rfl

theorem stepOp_ram_length {V : Type} (H : Bytes → String) (c : Cache V) (d : Disk)
    (op : CacheOp V) (hcap : 1 ≤ c.ramCapacity) (h : c.ram.length ≤ c.ramCapacity) :
    ((stepOp H c d op).1).ram.length ≤ c.ramCapacity := by
  cases op with
  | get k df => simpa [stepOp] using length_ram_get_le H c d k df hcap h
  | insert k v =>
    simpa [stepOp, Cache.insert] using length_ram_insert_to_ram_le k v hcap h
  | clearRam => simp [stepOp, Cache.clear_ram]

theorem runOps_ram_length {V : Type} (H : Bytes → String) (ops : List (CacheOp V)) :
    ∀ (c : Cache V) (d : Disk), 1 ≤ c.ramCapacity → c.ram.length ≤ c.ramCapacity →
      ((runOps H c d ops).1).ram.length ≤ c.ramCapacity := by
  induction ops with
  | nil => intro c d _ h; exact h
  | cons op ops ih =>
    intro c d hcap h
    rw [runOps]
    have hc := stepOp_ramCapacity H c d op
    have h1 : 1 ≤ ((stepOp H c d op).1).ramCapacity := by rw [hc]; exact hcap
    have h2 : ((stepOp H c d op).1).ram.length ≤ ((stepOp H c d op).1).ramCapacity := by
      rw [hc]
      exact stepOp_ram_length H c d op hcap h
    have h3 := ih (stepOp H c d op).1 (stepOp H c d op).2 h1 h2
    rw [hc] at h3
    exact h3

theorem not_mem_keys_tail {α : Type} {l : List (String × α)} {key : String}
    (h : key ∉ l.map Prod.fst) : key ∉ (l.tail).map Prod.fst := by
  intro hmem
  exact h (((List.tail_sublist l).map Prod.fst).subset hmem)

theorem get_from_ram_after_insert_some {V : Type} (c : Cache V) (key : String)
    (w : V) (hnd : (c.ram.map Prod.fst).Nodup) :
    ((c.insert_to_ram key (some w)).get_from_ram key).1 = some w := by
  have hnm : key ∉ ((popAssoc c.ram key).2).map Prod.fst :=
    not_mem_keys_popAssoc_of_nodup hnd
  have hnmt : key ∉ (((popAssoc c.ram key).2).tail).map Prod.fst :=
    not_mem_keys_tail hnm
  have hcond : ∀ b : Bool, key ∉
      ((if b then ((popAssoc c.ram key).2).tail
        else (popAssoc c.ram key).2).map Prod.fst) := by
    intro b
    cases b
    · exact hnm
    · exact hnmt
  simp only [Cache.insert_to_ram, Cache.get_from_ram]
  rw [popAssoc_append_of_not_mem (some w) (hcond _)]
  rfl

theorem get_from_disk_insert_other_version {V : Type} (H : Bytes → String)
    (c₁ c₂ : Cache V) (d : Disk) (key : String) (v : Option V)
    (hlen : c₁.version.length < 2 ^ 64) (hne : c₁.version ≠ c₂.version) :
    Cache.get_from_disk H c₂ (Cache.insert_to_disk H c₁ d key v) key = none := by
  simp only [Cache.insert_to_disk, Cache.get_from_disk, Disk.read_write_self]
  simp only [List.append_assoc]
  rw [List.take_left' (toBytesLE8_length _), List.drop_left' (toBytesLE8_length _),
    fromBytesLE_toBytesLE8 hlen, List.take_left]
  simp [hne]

/- Claim theorems. -/

/-- C1 (amended): for every cache instance with duplicate-free RAM keys and
every value `v` other than Python `None`, `insert(k, v)` followed by
`get(k)` on the same instance returns a value equal to `v` (it is served
from the RAM layer, for any serializer).  The claim as stated fails for the
storable value `None`: see the counterexample. -/
theorem insert_get_round_trip {V : Type} (H : Bytes → String) (c : Cache V)
    (d : Disk) (key : String) (v : V)
    (hnd : (c.ram.map Prod.fst).Nodup) :
    (Cache.get H (Cache.insert H c d key (some v)).1
        (Cache.insert H c d key (some v)).2 key none).1 = GetResult.ok (some v) := by
  have h := get_from_ram_after_insert_some c key v hnd
  simp only [Cache.insert, Cache.get, h]

/-- Witness for C1: the round trip at key "k", value 7, on a fresh
instance. -/
theorem insert_get_round_trip_witness :
    (Cache.get exH (Cache.insert exH exCache [] "k" (some 7)).1
        (Cache.insert exH exCache [] "k" (some 7)).2 "k" none).1
      = GetResult.ok (some 7) :=
  insert_get_round_trip exH exCache [] "k" 7 (by decide)

/-- Counterexample for C1 as stated: `None` is storable by the configured
serializer (`exDecode (exEncode none) = none`), yet after `insert("k", None)`
a bare `get("k")` on the same instance raises `KeyError("k")` instead of
returning a value equal to `None` — the `is not None` tests make a stored
`None` indistinguishable from a miss in both layers. -/
theorem insert_get_round_trip_counterexample :
    exDecode (exEncode none) = none ∧
    (Cache.get exH (Cache.insert exH exCache [] "k" none).1
        (Cache.insert exH exCache [] "k" none).2 "k" none).1
      = GetResult.keyError "k" :=
  ⟨by decide, by decide⟩

/-- C2: for a cache constructed with `ram_capacity ≥ 1`, after any finite
sequence of `get`, `insert` and `clear_ram` operations the RAM layer never
holds more than `ram_capacity` entries. -/
theorem ram_capacity_invariant {V : Type} (H : Bytes → String) (ver : String)
    (cap : Nat) (enc : Option V → Bytes) (dec : Bytes → Option V) (d : Disk)
    (ops : List (CacheOp V)) (hcap : 1 ≤ cap) :
    ((runOps H (mkCache V ver cap enc dec) d ops).1).ram.length ≤ cap :=
  runOps_ram_length H ops (mkCache V ver cap enc dec) d hcap (by simp [mkCache])

/-- Witness for C2: a concrete operation sequence at capacity 1. -/
theorem ram_capacity_invariant_witness :
    ((runOps exH (mkCache Nat "v1" 1 exEncode exDecode) []
        [CacheOp.insert "a" (some 1), CacheOp.insert "b" (some 2),
         CacheOp.get "a" (some none), CacheOp.clearRam,
         CacheOp.insert "c" (some 3)]).1).ram.length ≤ 1 :=
  ram_capacity_invariant exH "v1" 1 exEncode exDecode []
    [CacheOp.insert "a" (some 1), CacheOp.insert "b" (some 2),
     CacheOp.get "a" (some none), CacheOp.clearRam,
     CacheOp.insert "c" (some 3)] (by decide)

/-- C3: with RAM capacity 2, `insert A`, `insert B`, `get A`, `insert C`
(distinct keys) evicts B — the least recently used key, since the `get`
refreshed A — and leaves exactly A and C present in the RAM layer. -/
theorem lru_eviction_order {V : Type} (H : Bytes → String) (ver : String)
    (enc : Option V → Bytes) (dec : Bytes → Option V) (d : Disk)
    (A B C : String) (vA vB vC : V)
    (hAB : A ≠ B) (hAC : A ≠ C) (hBC : B ≠ C) :
    ((runOps H (mkCache V ver 2 enc dec) d
        [CacheOp.insert A (some vA), CacheOp.insert B (some vB),
         CacheOp.get A none, CacheOp.insert C (some vC)]).1).ram
        = [(A, some vA), (C, some vC)] ∧
      B ∉ (((runOps H (mkCache V ver 2 enc dec) d
        [CacheOp.insert A (some vA), CacheOp.insert B (some vB),
         CacheOp.get A none, CacheOp.insert C (some vC)]).1).ram.map Prod.fst) := by
  have hram : ((runOps H (mkCache V ver 2 enc dec) d
      [CacheOp.insert A (some vA), CacheOp.insert B (some vB),
       CacheOp.get A none, CacheOp.insert C (some vC)]).1).ram
      = [(A, some vA), (C, some vC)] := by
    simp [runOps, stepOp, Cache.insert, Cache.insert_to_ram, Cache.get,
      Cache.get_from_ram, mkCache, popAssoc, hAB, hAC, hBC,
      Ne.symm hAB, Ne.symm hAC, Ne.symm hBC, join_some_eq, join_none_eq]
  refine ⟨hram, ?_⟩
  rw [hram]
  simp [Ne.symm hAB, hBC]

/-- Witness for C3: the scenario at keys "a", "b", "c" with values 1, 2, 3. -/
theorem lru_eviction_order_witness :
    ((runOps exH (mkCache Nat "v1" 2 exEncode exDecode) []
        [CacheOp.insert "a" (some 1), CacheOp.insert "b" (some 2),
         CacheOp.get "a" none, CacheOp.insert "c" (some 3)]).1).ram
        = [("a", some 1), ("c", some 3)] ∧
      "b" ∉ (((runOps exH (mkCache Nat "v1" 2 exEncode exDecode) []
        [CacheOp.insert "a" (some 1), CacheOp.insert "b" (some 2),
         CacheOp.get "a" none, CacheOp.insert "c" (some 3)]).1).ram.map Prod.fst) :=
  lru_eviction_order exH "v1" exEncode exDecode [] "a" "b" "c" 1 2 3
    (by decide) (by decide) (by decide)

/-- C4: `get_from_disk` returns absence whenever the stored record's version
bytes differ from the instance's version or the stored key bytes differ from
the UTF-8 key; consequently a record written by an instance with one version
tag is invisible to an instance with a different version tag on the same
directory — its bare `get` raises `KeyError`, its `get` with a default
returns the default. -/
theorem disk_version_and_key_guard {V : Type} (H : Bytes → String) :
    (∀ (c : Cache V) (d : Disk) (key : String) (s : Bytes),
        Disk.read d (H (utf8 key)) = some s →
        recordVersion s ≠ c.version →
        Cache.get_from_disk H c d key = none) ∧
    (∀ (c : Cache V) (d : Disk) (key : String) (s : Bytes),
        Disk.read d (H (utf8 key)) = some s →
        recordKey s ≠ utf8 key →
        Cache.get_from_disk H c d key = none) ∧
    (∀ (c₁ c₂ : Cache V) (d : Disk) (key : String) (v : Option V),
        c₁.version.length < 2 ^ 64 →
        c₁.version ≠ c₂.version →
        key ∉ c₂.ram.map Prod.fst →
        (Cache.get H c₂ (Cache.insert_to_disk H c₁ d key v) key none).1
          = GetResult.keyError key) ∧
    (∀ (c₁ c₂ : Cache V) (d : Disk) (key : String) (v : Option V) (X : Option V),
        c₁.version.length < 2 ^ 64 →
        c₁.version ≠ c₂.version →
        key ∉ c₂.ram.map Prod.fst →
        (Cache.get H c₂ (Cache.insert_to_disk H c₁ d key v) key (some X)).1
          = GetResult.ok X) := by
  refine ⟨?_, ?_, ?_, ?_⟩
  · intro c d key s hread hv
    simp only [Cache.get_from_disk, hread]
    simp only [recordVersion] at hv
    simp [hv]
  · intro c d key s hread hk
    simp only [Cache.get_from_disk, hread]
    simp only [recordKey, recordAfterVersion] at hk
    rcases eq_or_ne ((s.drop 8).take (fromBytesLE (s.take 8))) c.version with hv | hv
    · rw [if_neg (not_ne_iff.mpr hv), if_pos hk]
    · rw [if_pos hv]
  · intro c₁ c₂ d key v hlen hne hkeys
    rw [get_of_miss H c₂ _ key none hkeys
      (get_from_disk_insert_other_version H c₁ c₂ d key v hlen hne)]
  · intro c₁ c₂ d key v X hlen hne hkeys
    rw [get_of_miss H c₂ _ key (some X) hkeys
      (get_from_disk_insert_other_version H c₁ c₂ d key v hlen hne)]

/-- Witness for C4: a version-mismatched record (empty file), a
key-mismatched record with matching version, and the two-instance isolation
scenario, all at concrete inputs. -/
theorem disk_version_and_key_guard_witness :
    Cache.get_from_disk exH exCache [(exH (utf8 "k"), [])] "k" = none ∧
    Cache.get_from_disk exH exCache [(exH (utf8 "k"), exBadKeyRecord)] "k" = none ∧
    (Cache.get exH exCache2 (Cache.insert_to_disk exH exCache [] "k" (some 5))
        "k" none).1 = GetResult.keyError "k" ∧
    (Cache.get exH exCache2 (Cache.insert_to_disk exH exCache [] "k" (some 5))
        "k" (some (some 9))).1 = GetResult.ok (some 9) :=
  ⟨(disk_version_and_key_guard exH).1 exCache [(exH (utf8 "k"), [])] "k" []
      (by decide) (by decide),
   (disk_version_and_key_guard exH).2.1 exCache
      [(exH (utf8 "k"), exBadKeyRecord)] "k" exBadKeyRecord (by decide) (by decide),
   (disk_version_and_key_guard exH).2.2.1 exCache exCache2 [] "k" (some 5)
      (by decide) (by decide) (by decide),
   (disk_version_and_key_guard exH).2.2.2 exCache exCache2 [] "k" (some 5) (some 9)
      (by decide) (by decide) (by decide)⟩

/-- C5: a `get` satisfied from disk (RAM miss, then disk hit) returns
exactly the value stored on disk and leaves the key present in the RAM
layer immediately afterwards (promotion). -/
theorem disk_hit_promotes {V : Type} (H : Bytes → String) (c : Cache V)
    (d : Disk) (key : String) (v : V) (df : Option (Option V))
    (h1 : (c.get_from_ram key).1 = none)
    (h2 : Cache.get_from_disk H c d key = some v) :
    (Cache.get H c d key df).1 = GetResult.ok (some v) ∧
    key ∈ ((Cache.get H c d key df).2).ram.map Prod.fst := by
  rw [get_of_disk_hit H c d key df v h1 h2]
  exact ⟨rfl, mem_keys_insert_to_ram _ _ _⟩

/-- Witness for C5: key "k" lives only on disk; `get` returns its value 5
and promotes "k" into RAM. -/
theorem disk_hit_promotes_witness :
    (Cache.get exH exCache exDisk "k" none).1 = GetResult.ok (some 5) ∧
    "k" ∈ ((Cache.get exH exCache exDisk "k" none).2).ram.map Prod.fst :=
  disk_hit_promotes exH exCache exDisk "k" 5 none (by decide) (by decide)

/-- C6: when a key is absent from the RAM layer and the disk lookup misses
(absent file, version mismatch, key mismatch — all surface as `none`),
`get` with a supplied default `X` returns `X` without raising, for every
`X` including Python `None`, and `get` with no default raises
`KeyError(key)`. -/
theorem default_fallback {V : Type} (H : Bytes → String) (c : Cache V)
    (d : Disk) (key : String)
    (h1 : key ∉ c.ram.map Prod.fst)
    (h2 : Cache.get_from_disk H c d key = none) :
    (∀ X : Option V, (Cache.get H c d key (some X)).1 = GetResult.ok X) ∧
    (Cache.get H c d key none).1 = GetResult.keyError key := by
  constructor
  · intro X
    rw [get_of_miss H c d key (some X) h1 h2]
  · rw [get_of_miss H c d key none h1 h2]

/-- Witness for C6: a missing key on a fresh instance with an empty
directory, with defaults `some 9`, Python `None`, and no default. -/
theorem default_fallback_witness :
    (Cache.get exH exCache [] "missing" (some (some 9))).1 = GetResult.ok (some 9) ∧
    (Cache.get exH exCache [] "missing" (some none)).1 = GetResult.ok none ∧
    (Cache.get exH exCache [] "missing" none).1 = GetResult.keyError "missing" :=
  ⟨(default_fallback exH exCache [] "missing" (by decide) (by decide)).1 (some 9),
   (default_fallback exH exCache [] "missing" (by decide) (by decide)).1 none,
   (default_fallback exH exCache [] "missing" (by decide) (by decide)).2⟩

/-- C7: `insert_to_disk` writes — replacing any previous contents of that
file, for every prior directory state — to the file named by the hash
digest of the UTF-8 key, exactly the byte sequence
`[version_len:8][version][key_len:8][key][value_len:8][value]`; and the
length prefixes are genuine 8-byte little-endian encodings (length 8,
decoding back to the length for every value below `2 ^ 64`). -/
theorem insert_to_disk_wire_format (V : Type) (H : Bytes → String) :
    (∀ (c : Cache V) (d : Disk) (key : String) (v : Option V),
        Disk.read (Cache.insert_to_disk H c d key v) (H (utf8 key))
          = some (toBytesLE8 c.version.length ++ c.version
              ++ (toBytesLE8 (utf8 key).length ++ utf8 key)
              ++ (toBytesLE8 (c.encode v).length ++ c.encode v))) ∧
    (∀ n : Nat, (toBytesLE8 n).length = 8 ∧
        (n < 2 ^ 64 → fromBytesLE (toBytesLE8 n) = n)) := by
  constructor
  · intro c d key v
    simp only [Cache.insert_to_disk]
    exact Disk.read_write_self _ _ _
  · intro n
    exact ⟨toBytesLE8_length n, fun h => fromBytesLE_toBytesLE8 h⟩

/-- Witness for C7: the record written for key "k", value 5, over a
directory that already held different contents in that file. -/
theorem insert_to_disk_wire_format_witness :
    Disk.read (Cache.insert_to_disk exH exCache [(exH (utf8 "k"), [7])] "k" (some 5))
        (exH (utf8 "k"))
      = some (toBytesLE8 exCache.version.length ++ exCache.version
          ++ (toBytesLE8 (utf8 "k").length ++ utf8 "k")
          ++ (toBytesLE8 (exCache.encode (some 5)).length
              ++ exCache.encode (some 5))) ∧
    (toBytesLE8 2).length = 8 ∧ fromBytesLE (toBytesLE8 2) = 2 :=
  ⟨(insert_to_disk_wire_format Nat exH).1 exCache [(exH (utf8 "k"), [7])] "k" (some 5),
   ((insert_to_disk_wire_format Nat exH).2 2).1,
   ((insert_to_disk_wire_format Nat exH).2 2).2 (by decide)⟩

/-- Counterexample for C8 as stated: the endpoint `"httpx://e"` has scheme
`httpx`, which is none of `http`, `https`, `file` — yet `apiFetch` does not
raise the invalid-endpoint `ValueError`: because the string starts with
`"http"`, it is fetched via GET.  The source dispatches on string prefixes,
not on the parsed scheme. -/
theorem apiFetch_scheme_counterexample :
    uriScheme "httpx://e" = "httpx" ∧
    ¬ ("httpx" = "http" ∨ "httpx" = "https" ∨ "httpx" = "file") ∧
    apiFetch id "httpx://e" = FetchAction.httpGet "httpx://e" ∧
    apiFetch id "httpx://e" ≠ FetchAction.invalidEndpoint :=
  ⟨by decide, by decide, by decide, by decide⟩

/-- C8 (amended): `apiFetch` raises the invalid-endpoint `ValueError`
exactly when the endpoint string starts with neither `"http"` nor `"file"`;
every endpoint starting with `"http"` (hence also every `https` endpoint,
but likewise any other string with that prefix) is fetched via GET; every
remaining endpoint starting with `"file"` is read from the local filesystem
at the path obtained by deleting every `"file://"` occurrence and
percent-decoding the rest. -/
theorem apiFetch_dispatch (unquote : String → String) :
    (∀ e : String, apiFetch unquote e = FetchAction.invalidEndpoint ↔
        (pyStartsWith e "http" = false ∧ pyStartsWith e "file" = false)) ∧
    (∀ e : String, pyStartsWith e "http" = true →
        apiFetch unquote e = FetchAction.httpGet e) ∧
    (∀ e : String, pyStartsWith e "http" = false → pyStartsWith e "file" = true →
        apiFetch unquote e = FetchAction.fileRead (unquote (pyReplace e "file://" ""))) := by
  refine ⟨?_, ?_, ?_⟩
  · intro e
    constructor
    · intro h
      by_cases h1 : pyStartsWith e "http" = true
      · simp [apiFetch, h1] at h
      · by_cases h2 : pyStartsWith e "file" = true
        · simp [apiFetch, h1, h2] at h
        · simp at h1 h2
          exact ⟨h1, h2⟩
    · intro ⟨h1, h2⟩
      simp [apiFetch, h1, h2]
  · intro e h1
    simp [apiFetch, h1]
  · intro e h1 h2
    simp [apiFetch, h1, h2]

/-- Witness for C8: the three dispatch outcomes at concrete endpoints
(with the identity as the percent-decoder). -/
theorem apiFetch_dispatch_witness :
    apiFetch id "ftp://h/x" = FetchAction.invalidEndpoint ∧
    apiFetch id "http://h/x" = FetchAction.httpGet "http://h/x" ∧
    apiFetch id "file:///tmp/x" = FetchAction.fileRead "/tmp/x" :=
  ⟨((apiFetch_dispatch id).1 "ftp://h/x").mpr ⟨by decide, by decide⟩,
   (apiFetch_dispatch id).2.1 "http://h/x" (by decide),
   ((apiFetch_dispatch id).2.2 "file:///tmp/x" (by decide) (by decide)).trans
     (by decide)⟩

/-- C9: a bare `get` that fails with `KeyError` because the key is absent
from the RAM layer and missing on disk leaves the cache state unchanged:
the RAM layer's contents and recency order are identical before and after
the failed call. -/
theorem keyerror_get_leaves_state {V : Type} (H : Bytes → String) (c : Cache V)
    (d : Disk) (key : String)
    (h1 : key ∉ c.ram.map Prod.fst)
    (h2 : Cache.get_from_disk H c d key = none) :
    (Cache.get H c d key none).1 = GetResult.keyError key ∧
    ((Cache.get H c d key none).2).ram = c.ram := by
  rw [get_of_miss H c d key none h1 h2]
  exact ⟨rfl, rfl⟩

/-- Witness for C9: a failed `get "k"` on an instance whose RAM holds the
unrelated key "a" leaves the RAM list exactly as it was. -/
theorem keyerror_get_leaves_state_witness :
    (Cache.get exH (Cache.insert exH exCache [] "a" (some 1)).1 [] "k" none).1
        = GetResult.keyError "k" ∧
    ((Cache.get exH (Cache.insert exH exCache [] "a" (some 1)).1 [] "k" none).2).ram
        = ((Cache.insert exH exCache [] "a" (some 1)).1).ram :=
  keyerror_get_leaves_state exH (Cache.insert exH exCache [] "a" (some 1)).1 []
    "k" (by decide) (by decide)

/-- C10: operations that never call `Disk.write` — `get` (in every outcome)
and `clear_ram` — change no file of the cache directory: running any
sequence of them leaves the directory exactly as it was; only `insert`
(via `insert_to_disk`) writes to disk. -/
theorem reads_leave_disk_unchanged {V : Type} (H : Bytes → String) (c : Cache V)
    (d : Disk) (ops : List (CacheOp V))
    (h : ∀ op ∈ ops, op.isDiskWrite = false) :
    (runOps H c d ops).2 = d := by
  induction ops generalizing c d with
  | nil => rfl
  | cons op ops ih =>
    rw [runOps]
    cases op with
    | get key df =>
      exact ih _ _ (fun o ho => h o (List.mem_cons_of_mem _ ho))
    | insert key v =>
      have hbad := h (CacheOp.insert key v) (List.mem_cons_self _ _)
      simp [CacheOp.isDiskWrite] at hbad
    | clearRam =>
      exact ih _ _ (fun o ho => h o (List.mem_cons_of_mem _ ho))

/-- Witness for C10: a hit, a clear, and a miss-with-default leave the
one-record directory untouched. -/
theorem reads_leave_disk_unchanged_witness :
    (runOps exH exCache exDisk
        [CacheOp.get "k" none, CacheOp.clearRam,
         CacheOp.get "z" (some none)]).2 = exDisk :=
  reads_leave_disk_unchanged exH exCache exDisk
    [CacheOp.get "k" none, CacheOp.clearRam, CacheOp.get "z" (some none)]
    (by decide)
